import Mathlib

/-!
Shallow embedding of the automation core of the multi-auto-Clicker repository
(src/automation/actions.py, src/automation/script_model.py,
src/automation/engine.py), together with proofs settling the frozen claims
about its natural-language specification.

JSON documents are modelled by the inductive `JValue`; Python dictionaries by
association lists (`PyDict`).  Python's value coercions (`str`, `int`,
`float`, `bool`-truthiness, `or`, `list`) are modelled by the `py*` helpers
below.  Fallible Python code is modelled with `Except PyErr`.
-/

/-- JSON-like runtime values, the payload of parsed script documents. -/
inductive JValue where
  | null : JValue
  | bool (b : Bool) : JValue
  | num (n : Int) : JValue
  | str (s : String) : JValue
  | arr (xs : List JValue) : JValue
  | obj (fields : List (String × JValue)) : JValue

/-- A Python dict as it appears in the parsers: an association list.  Key
lookups return the first binding (Python dicts have unique keys). -/
abbrev PyDict := List (String × JValue)

/-- Model of Python `d.get(key, dflt)` on a dict. -/
def objGetD (fields : PyDict) (key : String) (dflt : JValue) : JValue :=
  match fields with
  | [] => dflt
  | (k, v) :: rest => if k = key then v else objGetD rest key dflt

/-- Model of Python `key in d` on a dict. -/
def hasKey (fields : PyDict) (key : String) : Bool :=
  match fields with
  | [] => false
  | (k, _) :: rest => if k = key then true else hasKey rest key

/-- Python truthiness (`bool(v)`) of a JSON value. -/
def pyTruthy : JValue → Bool
  | JValue.null => false
  | JValue.bool b => b
  | JValue.num n => decide (n ≠ 0)
  | JValue.str s => decide (s ≠ "")
  | JValue.arr xs => !xs.isEmpty
  | JValue.obj fs => !fs.isEmpty

/-- Python `a or b`: `a` when truthy, else `b`. -/
def pyOr (a b : JValue) : JValue := if pyTruthy a = true then a else b

mutual

/-- Python `repr(v)` for JSON values (containers print their elements,
strings print quoted). -/
def pyRepr : JValue → String
  | JValue.null => "None"
  | JValue.bool true => "True"
  | JValue.bool false => "False"
  | JValue.num n => toString n
  | JValue.str s => "\x27" ++ s ++ "\x27"
  | JValue.arr xs => "[" ++ String.intercalate ", " (pyReprList xs) ++ "]"
  | JValue.obj fs => "\x7b" ++ String.intercalate ", " (pyReprPairs fs) ++ "\x7d"

/-- Element representations of a Python list. -/
def pyReprList : List JValue → List String
  | [] => []
  | v :: vs => pyRepr v :: pyReprList vs

/-- Entry representations of a Python dict. -/
def pyReprPairs : List (String × JValue) → List String
  | [] => []
  | (k, v) :: kvs => ("\x27" ++ k ++ "\x27: " ++ pyRepr v) :: pyReprPairs kvs

end

/-- Python `str(v)` for JSON values (scalars unquoted, containers as repr). -/
def pyStr : JValue → String
  | JValue.null => "None"
  | JValue.bool true => "True"
  | JValue.bool false => "False"
  | JValue.num n => toString n
  | JValue.str s => s
  | JValue.arr xs => pyRepr (JValue.arr xs)
  | JValue.obj fs => pyRepr (JValue.obj fs)

/-- Python `int(v)`: `none` models a raised `TypeError`/`ValueError`.
String parsing is modelled for decimal integer literals via `String.toInt?`
after stripping whitespace. -/
def pyInt : JValue → Option Int
  | JValue.null => none
  | JValue.bool b => some (if b then 1 else 0)
  | JValue.num n => some n
  | JValue.str s => s.trim.toInt?
  | JValue.arr _ => none
  | JValue.obj _ => none

/-- Python `float(v)`, modelled over the rationals; `none` models a raised
exception.  Strings are accepted only in integer form (decimal-point string
parsing is not exercised by any claim). -/
def pyFloat : JValue → Option Rat
  | JValue.null => none
  | JValue.bool b => some (if b then 1 else 0)
  | JValue.num n => some (n : Rat)
  | JValue.str s => (s.trim.toInt?).map (fun n => (n : Rat))
  | JValue.arr _ => none
  | JValue.obj _ => none

/-- Python `list(v)`: lists are copied, strings iterate their characters,
dicts iterate their keys; other values raise (`none`). -/
def pyList : JValue → Option (List JValue)
  | JValue.arr xs => some xs
  | JValue.str s => some (s.toList.map (fun c => JValue.str (String.singleton c)))
  | JValue.obj fs => some (fs.map (fun kv => JValue.str kv.1))
  | _ => none

/-- Python exceptions raised by the embedded code. -/
inductive PyErr where
  | actionError (msg : String) : PyErr
  | valueError (msg : String) : PyErr
  | typeError (msg : String) : PyErr

/-- The Action taxonomy of `actions.py`: one constructor per dataclass.
Unconstrained fields (`args` elements, `cwd`, `x`, `y`) are stored as the raw
JSON values the source stores, since Python does not coerce them. -/
inductive BaseAction where
  | launchProcess (command : String) (args : List JValue) (cwd : JValue) (wait : Rat) : BaseAction
  | wait (milliseconds : Int) : BaseAction
  | sendKeys (sequence : String) : BaseAction
  | typeText (text : String) : BaseAction
  | windowActivate (title : String) : BaseAction
  | mouseClick (x y : JValue) (button : String) (clicks : Int) : BaseAction
  | scroll (amount : Int) (horizontal : Bool) : BaseAction

/-- Leading-whitespace removal, one half of Python `str.strip()`. -/
def dropLeadingWs : List Char → List Char
  | [] => []
  | c :: cs => if c.isWhitespace then dropLeadingWs cs else c :: cs

/-- Python `str.strip()`: drop whitespace at both ends. -/
def pyStripChars (cs : List Char) : List Char :=
  ((dropLeadingWs cs).reverse |> dropLeadingWs).reverse

/-- Python `str.lower()` on one character (ASCII case mapping, all the
sources use). -/
def pyLowerChar (c : Char) : Char :=
  if 'A' ≤ c ∧ c ≤ 'Z' then Char.ofNat (c.toNat + 32) else c

/-- Python `s.strip().lower()`. -/
def pyStripLower (s : String) : String :=
  String.mk ((pyStripChars s.toList).map pyLowerChar)

/-- The normalized action type string: `str(data.get("type", "")).strip().lower()`. -/
def actionTypeOf (data : PyDict) : String :=
  pyStripLower (pyStr (objGetD data "type" (JValue.str "")))

/-- The seven action kinds accepted by `BaseAction.from_dict`. -/
def supportedActionTypes : List String :=
  ["launch_process", "wait", "send_keys", "type_text", "window_activate", "mouse_click", "scroll"]

/-- Embedding of `BaseAction.from_dict` (actions.py lines 41-71). -/
def BaseAction.from_dict (data : PyDict) : Except PyErr BaseAction :=
  let action_type := actionTypeOf data
  if action_type = "launch_process" then
    match pyList (objGetD data "args" (JValue.arr [])) with
    | none => Except.error (PyErr.typeError "object is not iterable")
    | some args =>
      match pyFloat (pyOr (objGetD data "wait" (JValue.num 0)) (JValue.num 0)) with
      | none => Except.error (PyErr.typeError "float() argument invalid")
      | some w =>
        Except.ok (BaseAction.launchProcess (pyStr (objGetD data "command" JValue.null)) args
          (objGetD data "cwd" JValue.null) w)
  else if action_type = "wait" then
    match pyInt (pyOr (objGetD data "milliseconds" (JValue.num 0)) (JValue.num 0)) with
    | none => Except.error (PyErr.valueError "invalid literal for int()")
    | some ms => Except.ok (BaseAction.wait ms)
  else if action_type = "send_keys" then
    Except.ok (BaseAction.sendKeys (pyStr (objGetD data "sequence" (JValue.str ""))))
  else if action_type = "type_text" then
    Except.ok (BaseAction.typeText (pyStr (objGetD data "text" (JValue.str ""))))
  else if action_type = "window_activate" then
    Except.ok (BaseAction.windowActivate (pyStr (objGetD data "title" (JValue.str ""))))
  else if action_type = "mouse_click" then
    match pyInt (pyOr (objGetD data "clicks" (JValue.num 1)) (JValue.num 1)) with
    | none => Except.error (PyErr.valueError "invalid literal for int()")
    | some clicks =>
      Except.ok (BaseAction.mouseClick (objGetD data "x" JValue.null) (objGetD data "y" JValue.null)
        (pyStr (pyOr (objGetD data "button" (JValue.str "left")) (JValue.str "left"))) clicks)
  else if action_type = "scroll" then
    match pyInt (pyOr (objGetD data "amount" (JValue.num 0)) (JValue.num 0)) with
    | none => Except.error (PyErr.valueError "invalid literal for int()")
    | some amount =>
      Except.ok (BaseAction.scroll amount (pyTruthy (objGetD data "horizontal" (JValue.bool false))))
  else
    Except.error (PyErr.actionError ("Unknown action type: " ++ action_type))

/-- The Script dataclass of `script_model.py`. -/
structure AutomationScript where
  name : String
  actions : List BaseAction
  repeat_count : Option Int := none
  repeat_until_stopped : Bool := false

/-- The action-parsing loop of `AutomationScript.from_dict`: dict entries are
parsed (a failure propagates), non-dict entries are silently skipped. -/
def parseActions : List JValue → Except PyErr (List BaseAction)
  | [] => Except.ok []
  | raw :: rest =>
    match raw with
    | JValue.obj fs =>
      match BaseAction.from_dict fs with
      | Except.error e => Except.error e
      | Except.ok a =>
        match parseActions rest with
        | Except.error e => Except.error e
        | Except.ok tail => Except.ok (a :: tail)
    | _ => parseActions rest

/-- The `loop_cfg = data.get("loop") or {}` step of `AutomationScript.from_dict`. -/
def loopCfgOf (data : PyDict) : JValue :=
  pyOr (objGetD data "loop" JValue.null) (JValue.obj [])

/-- Repeat count read from the `loop` object: `max(1, int(rc))` when
`loop.repeat` is present and non-`None`, with conversion failures caught and
mapped to `None`; `None` otherwise. -/
def loopRepeatCount (data : PyDict) : Option Int :=
  match loopCfgOf data with
  | JValue.obj fs =>
    match objGetD fs "repeat" JValue.null with
    | JValue.null => none
    | rc =>
      match pyInt rc with
      | some n => some (max 1 n)
      | none => none
  | _ => none

/-- Until-stopped flag read from the `loop` object: `bool(loop_cfg.get("until_stopped", False))`. -/
def loopUntilStopped (data : PyDict) : Bool :=
  match loopCfgOf data with
  | JValue.obj fs => pyTruthy (objGetD fs "until_stopped" (JValue.bool false))
  | _ => false

/-- Top-level shorthand: `max(1, int(data.get("repeat", 0) or 0))` if
`"repeat" in data`, conversion failures caught; `None` otherwise. -/
def topRepeatCount (data : PyDict) : Option Int :=
  if hasKey data "repeat" = true then
    match pyInt (pyOr (objGetD data "repeat" (JValue.num 0)) (JValue.num 0)) with
    | some n => some (max 1 n)
    | none => none
  else none

/-- The complete loop-configuration resolution of `AutomationScript.from_dict`
(script_model.py lines 30-50): the `loop` object first, then the top-level
shorthand keys. -/
def resolveLoop (data : PyDict) : Option Int × Bool :=
  let repeat_count :=
    match loopRepeatCount data with
    | none => topRepeatCount data
    | some n => some n
  let repeat_until_stopped :=
    if loopUntilStopped data = false ∧
        pyTruthy (objGetD data "until_stopped" (JValue.bool false)) = true then true
    else loopUntilStopped data
  (repeat_count, repeat_until_stopped)

/-- Embedding of `AutomationScript.from_dict` (script_model.py lines 21-57). -/
def AutomationScript.from_dict (data : PyDict) : Except PyErr AutomationScript :=
  let name := pyStr (objGetD data "name" (JValue.str "Unnamed Script"))
  let actions_data := pyOr (objGetD data "actions" (JValue.arr [])) (JValue.arr [])
  let actionsE :=
    match actions_data with
    | JValue.arr raws => parseActions raws
    | _ => Except.ok []
  match actionsE with
  | Except.error e => Except.error e
  | Except.ok actions =>
    Except.ok { name := name, actions := actions,
                repeat_count := (resolveLoop data).1,
                repeat_until_stopped := (resolveLoop data).2 }

/-!
Engine embedding (src/automation/engine.py).

The worker thread `AutomationEngine._worker` is modelled as a trace-producing
function.  The run-time behaviour of an action (whether its `run` returns or
raises, Python exceptions carrying a string) is abstracted by an `ARun`
record; the shared cancellation flag `self._stop`, which the caller may set
concurrently, is abstracted by its value `stopAt i` at the i-th
between-action check.  Callbacks are modelled separately (see
`AutomationEngine._log` below); the trace records the raw observable facts.
-/

/-- Observable events of one engine run. -/
inductive Event where
  | log (msg : String) : Event
  | ran (idx : Nat) : Event
  | raised (idx : Nat) (msg : String) : Event
  | done (ok : Bool) (msg : String) : Event
deriving DecidableEq

/-- An action as the worker sees it at run time: its class name (used in the
progress log line) and the outcome of its `run` call. -/
structure ARun where
  name : String
  outcome : Except String Unit

/-- The progress log line of engine.py line 57. -/
def progressMsg (idx total : Nat) (name : String) : String :=
  "[" ++ toString (idx + 1) ++ "/" ++ toString total ++ "] " ++ name

/-- The for-loop of `AutomationEngine._worker` (engine.py lines 50-61) from
action index `i` on: check the stop flag, log progress, run the action;
a raise escapes to the surrounding `except` which finishes with an error. -/
def workerGo (total : Nat) (stopAt : Nat → Bool) : List ARun → Nat → List Event
  | [], _ => [Event.done true "Completed"]
  | a :: rest, i =>
    if stopAt i then [Event.done false "Aborted"]
    else
      Event.log (progressMsg i total a.name) ::
        match a.outcome with
        | Except.ok _ => Event.ran i :: workerGo total stopAt rest (i + 1)
        | Except.error e => [Event.raised i e, Event.done false ("Error: " ++ e)]

/-- The whole `_worker` body: the loop over `enumerate(self._script.actions)`
followed by `self._finish(True, "Completed")`. -/
def worker (acts : List ARun) (stopAt : Nat → Bool) : List Event :=
  workerGo acts.length stopAt acts 0

/-- Python class name of an action, as interpolated into the progress line. -/
def actionClassName : BaseAction → String
  | BaseAction.launchProcess _ _ _ _ => "LaunchProcessAction"
  | BaseAction.wait _ => "WaitAction"
  | BaseAction.sendKeys _ => "SendKeysAction"
  | BaseAction.typeText _ => "TypeTextAction"
  | BaseAction.windowActivate _ => "WindowActivateAction"
  | BaseAction.mouseClick _ _ _ _ => "MouseClickAction"
  | BaseAction.scroll _ _ => "ScrollAction"

/-- The worker run of an `AutomationEngine` holding `s`: the trace produced
for a given assignment of run-time outcomes to the script's actions.  Note
the worker reads nothing of `s` but `s.actions`. -/
def engineWorker (s : AutomationScript) (outcome : Nat → Except String Unit)
    (stopAt : Nat → Bool) : List Event :=
  worker (s.actions.mapIdx (fun i a => { name := actionClassName a, outcome := outcome i })) stopAt

/-- Mutable state of an `AutomationEngine` as far as `start()` reads and
writes it: whether `self._thread` is set and alive, the `self._stop` flag,
and (history variable) how many worker threads have been created. -/
structure EngineState where
  threadAlive : Bool
  stopFlag : Bool
  startedWorkers : Nat
deriving DecidableEq

/-- Embedding of `AutomationEngine.start` (engine.py lines 28-33): return
unchanged if a previous worker is still alive, else clear the stop flag and
start a fresh worker thread. -/
def AutomationEngine.start (st : EngineState) : EngineState :=
  if st.threadAlive then st
  else { threadAlive := true, stopFlag := false, startedWorkers := st.startedWorkers + 1 }

/-- Embedding of `AutomationEngine._log` (engine.py lines 43-48).  A callback
is a function that either returns (`Except.ok`) or raises (`Except.error`);
the result of `_log` records whether an exception escapes the call site. -/
def AutomationEngine._log (on_log : Option (String → Except PyErr Unit)) (msg : String) :
    Except PyErr Unit :=
  match on_log with
  | none => Except.ok ()
  | some cb =>
    match cb msg with
    | Except.ok u => Except.ok u
    | Except.error _ => Except.ok ()

/-- Embedding of `AutomationEngine._finish` (engine.py lines 63-68). -/
def AutomationEngine._finish (on_done : Option (Bool → String → Except PyErr Unit))
    (ok : Bool) (msg : String) : Except PyErr Unit :=
  match on_done with
  | none => Except.ok ()
  | some cb =>
    match cb ok msg with
    | Except.ok u => Except.ok u
    | Except.error _ => Except.ok ()

/-- Embedding of `RunContext.log` (actions.py lines 302-307). -/
def RunContext.log (logger : Option (String → Except PyErr Unit)) (msg : String) :
    Except PyErr Unit :=
  match logger with
  | none => Except.ok ()
  | some cb =>
    match cb msg with
    | Except.ok u => Except.ok u
    | Except.error _ => Except.ok ()

/-!
SendKeys embedding (actions.py lines 100-178).

The tokenizer `_tokenize_keys` is embedded over `List Char` (the source
iterates the sequence character by character).  Key injection through the
pynput backend (press/release pairs) is abstracted to `KeyEvent`s: a named
special key for mapped bracket tokens, a character otherwise.
-/

/-- The character scan of `_tokenize_keys` (actions.py lines 152-170):
`out`/`buf`/`in_tag` mirror the local variables of the source loop. -/
def tagScan (out : List (List Char)) (buf : List Char) (in_tag : Bool) :
    List Char → List (List Char)
  | [] => if buf = [] then out else out ++ [buf]
  | c :: cs =>
    if c = '<' then
      tagScan (if buf = [] then out else out ++ [buf]) [ '<' ] true cs
    else if c = '>' ∧ in_tag = true then
      tagScan (out ++ [buf ++ [ '>' ]]) [] false cs
    else
      tagScan out (buf ++ [c]) in_tag cs

/-- Python `part.split(" ")`: split on each single space, keeping empty
pieces. -/
def splitSpace : List Char → List (List Char)
  | [] => [[]]
  | c :: cs =>
    if c = ' ' then [] :: splitSpace cs
    else
      match splitSpace cs with
      | [] => [[c]]
      | p :: ps => (c :: p) :: ps

/-- Python `part.startswith("<") and part.endswith(">")`. -/
def isTagToken (part : List Char) : Bool :=
  part.head? == some '<' && part.getLast? == some '>'

/-- The flattening pass of `_tokenize_keys` (actions.py lines 171-178):
bracketed tokens are kept whole, other parts are split on spaces with empty
pieces dropped. -/
def flattenParts : List (List Char) → List (List Char)
  | [] => []
  | part :: rest =>
    (if isTagToken part = true then [part]
     else (splitSpace part).filter (fun p => !p.isEmpty)) ++ flattenParts rest

/-- Embedding of `_tokenize_keys` (actions.py lines 150-178). -/
def _tokenize_keys (sequence : List Char) : List (List Char) :=
  flattenParts (tagScan [] [] false sequence)

/-- Abstract key-injection events emitted by `SendKeysAction.run`: one
press/release of a named special key, or of a literal character. -/
inductive KeyEvent where
  | special (key : String) : KeyEvent
  | char (c : Char) : KeyEvent
deriving DecidableEq

/-- The `token_map` of `SendKeysAction.run` (actions.py lines 119-134):
bracket tokens mapped to named pynput keys, `<SPACE>` mapped to the literal
space character. -/
def token_map (t : List Char) : Option (Sum String Char) :=
  if t = "<ENTER>".toList then some (Sum.inl "enter")
  else if t = "<TAB>".toList then some (Sum.inl "tab")
  else if t = "<ESC>".toList then some (Sum.inl "esc")
  else if t = "<BACKSPACE>".toList then some (Sum.inl "backspace")
  else if t = "<DELETE>".toList then some (Sum.inl "delete")
  else if t = "<HOME>".toList then some (Sum.inl "home")
  else if t = "<END>".toList then some (Sum.inl "end")
  else if t = "<PAGE_UP>".toList then some (Sum.inl "page_up")
  else if t = "<PAGE_DOWN>".toList then some (Sum.inl "page_down")
  else if t = "<UP>".toList then some (Sum.inl "up")
  else if t = "<DOWN>".toList then some (Sum.inl "down")
  else if t = "<LEFT>".toList then some (Sum.inl "left")
  else if t = "<RIGHT>".toList then some (Sum.inl "right")
  else if t = "<SPACE>".toList then some (Sum.inr ' ')
  else none

/-- Injection of one token (actions.py lines 135-145): an unmapped token is
typed as its literal characters, a mapped one as the mapped key. -/
def injectToken (t : List Char) : List KeyEvent :=
  match token_map t with
  | none => t.map KeyEvent.char
  | some (Sum.inl k) => [KeyEvent.special k]
  | some (Sum.inr c) => [KeyEvent.char c]

/-- Key-injection events of `SendKeysAction.run` on the pynput path
(actions.py lines 104-147): an empty sequence returns before any injection;
otherwise every token of `_tokenize_keys` is injected in order. -/
def sendKeysRun (sequence : String) : List KeyEvent :=
  if sequence = "" then []
  else ((_tokenize_keys sequence.toList).map injectToken).flatten

/-- The command guard opening `LaunchProcessAction.run` (actions.py lines
81-83): raise when the command string is falsy (empty). -/
def LaunchProcessAction.runCheck (command : String) : Except PyErr Unit :=
  if command = "" then
    Except.error (PyErr.actionError "launch_process: \x27command\x27 is required")
  else Except.ok ()

/-- Projection of the command field of a parsed launch action. -/
def BaseAction.commandOf : BaseAction → Option String
  | BaseAction.launchProcess c _ _ _ => some c
  | _ => none

/-- Modelled from the spec: the spec describes literal runs outside bracketed
tokens as "split on whitespace"; this variant of the flattening pass splits
on every whitespace character (the source splits on the space character
only). -/
def splitWhitespaceChars : List Char → List (List Char)
  | [] => [[]]
  | c :: cs =>
    if c.isWhitespace then [] :: splitWhitespaceChars cs
    else
      match splitWhitespaceChars cs with
      | [] => [[c]]
      | p :: ps => (c :: p) :: ps

/-- Modelled from the spec: tokenization with literal runs split on
whitespace, for comparison with the source's `_tokenize_keys`. -/
def tokenizeKeysSpecWs (sequence : List Char) : List (List Char) :=
  (tagScan [] [] false sequence).foldr
    (fun part acc =>
      (if isTagToken part = true then [part]
       else (splitWhitespaceChars part).filter (fun p => !p.isEmpty)) ++ acc) []

/-!
Claim theorems.
-/

/-- A 2-action script whose loop configuration requests 3 passes. -/
def scriptRepeat3 : AutomationScript :=
  { name := "s", actions := [BaseAction.wait 0, BaseAction.wait 0],
    repeat_count := some 3, repeat_until_stopped := false }

/-- A 2-action script whose loop configuration requests repetition until
cancelled. -/
def scriptUntilStopped : AutomationScript :=
  { name := "s", actions := [BaseAction.wait 0, BaseAction.wait 0],
    repeat_count := none, repeat_until_stopped := true }

/-- C1: the claim states that the worker executes the action sequence
`repeat_count` times, and for `repeat_until_stopped` scripts loops until the
cancel flag ends the run with `on_done(false, "Aborted")`.  The code does
neither: `_worker` never reads the loop configuration.  This theorem records
the divergence: the trace is independent of `repeat_count` and
`repeat_until_stopped`; a 2-action script with `repeat_count = 3` runs each
action exactly once (2 executions, not 6) and finishes `Completed`; and an
until-stopped script with the cancel flag never set also terminates after a
single pass with `on_done(true, "Completed")` instead of looping. -/
theorem worker_ignores_loop_config :
    (∀ (s : AutomationScript) (outcome : Nat → Except String Unit) (stopAt : Nat → Bool)
        (rc : Option Int) (rus : Bool),
        engineWorker s outcome stopAt =
          engineWorker { s with repeat_count := rc, repeat_until_stopped := rus } outcome stopAt)
  ∧ engineWorker scriptRepeat3 (fun _ => Except.ok ()) (fun _ => false) =
      [Event.log "[1/2] WaitAction", Event.ran 0,
       Event.log "[2/2] WaitAction", Event.ran 1,
       Event.done true "Completed"]
  ∧ engineWorker scriptUntilStopped (fun _ => Except.ok ()) (fun _ => false) =
      [Event.log "[1/2] WaitAction", Event.ran 0,
       Event.log "[2/2] WaitAction", Event.ran 1,
       Event.done true "Completed"] :=
  ⟨fun _ _ _ _ _ => rfl, rfl, rfl⟩

/-- C2: with actions `[A, B, C]` none of which raises and the cancel flag
never set, the worker trace is exactly: progress log for A, A runs, progress
log for B, B runs, progress log for C, C runs, then a single
`on_done(true, "Completed")` — strict sequential order, one execution each. -/
theorem worker_sequencing (a b c : ARun)
    (ha : a.outcome = Except.ok ()) (hb : b.outcome = Except.ok ())
    (hc : c.outcome = Except.ok ()) :
    worker [a, b, c] (fun _ => false) =
      [Event.log (progressMsg 0 3 a.name), Event.ran 0,
       Event.log (progressMsg 1 3 b.name), Event.ran 1,
       Event.log (progressMsg 2 3 c.name), Event.ran 2,
       Event.done true "Completed"] := by
  simp [worker, workerGo, ha, hb, hc]

/-- Witness for `worker_sequencing` at three concrete actions. -/
theorem worker_sequencing_witness :
    worker [⟨"A", Except.ok ()⟩, ⟨"B", Except.ok ()⟩, ⟨"C", Except.ok ()⟩] (fun _ => false) =
      [Event.log (progressMsg 0 3 "A"), Event.ran 0,
       Event.log (progressMsg 1 3 "B"), Event.ran 1,
       Event.log (progressMsg 2 3 "C"), Event.ran 2,
       Event.done true "Completed"] :=
  worker_sequencing ⟨"A", Except.ok ()⟩ ⟨"B", Except.ok ()⟩ ⟨"C", Except.ok ()⟩ rfl rfl rfl

/-- C3: if the first action completes and the cancel flag is observed unset
at the boundary before it but set at the boundary after it, then the worker
runs no further action and the trace ends immediately with a single
`on_done(false, "Aborted")`.  Cancellation is only observed at these
boundaries: in the model an action's `run` is one atomic step, exactly as in
the source, where the flag is read only at the top of the loop. -/
theorem worker_cancel_boundary (a b : ARun) (rest : List ARun) (stopAt : Nat → Bool)
    (ha : a.outcome = Except.ok ()) (h0 : stopAt 0 = false) (h1 : stopAt 1 = true) :
    worker (a :: b :: rest) stopAt =
      [Event.log (progressMsg 0 (rest.length + 2) a.name), Event.ran 0,
       Event.done false "Aborted"] := by
  simp [worker, workerGo, ha, h0, h1]

/-- Witness for `worker_cancel_boundary`: flag set between the first and
second action. -/
theorem worker_cancel_boundary_witness :
    worker [⟨"A", Except.ok ()⟩, ⟨"B", Except.ok ()⟩] (fun i => decide (1 ≤ i)) =
      [Event.log (progressMsg 0 2 "A"), Event.ran 0, Event.done false "Aborted"] :=
  worker_cancel_boundary ⟨"A", Except.ok ()⟩ ⟨"B", Except.ok ()⟩ [] (fun i => decide (1 ≤ i))
    rfl rfl rfl

/-- Number of `done` events (that is, `_finish` invocations) in a trace. -/
def countDone (evs : List Event) : Nat :=
  (evs.filter (fun ev => match ev with | Event.done _ _ => true | _ => false)).length

/-- Every worker loop tail produces exactly one `done` event. -/
theorem workerGo_countDone (total : Nat) (stopAt : Nat → Bool) :
    ∀ (acts : List ARun) (i : Nat), countDone (workerGo total stopAt acts i) = 1 := by
  intro acts
  induction acts with
  | nil => intro i; simp [workerGo, countDone]
  | cons a rest ih =>
    intro i
    by_cases hs : stopAt i
    · simp [workerGo, hs, countDone]
    · rcases ho : a.outcome with e | u
      · simp [workerGo, hs, ho, countDone]
      · simpa [workerGo, hs, ho, countDone] using ih (i + 1)

/-- C7: at most one worker per engine.  `start()` on an engine whose previous
worker thread is still alive returns the state unchanged and creates no
thread; hence two `start()` calls in quick succession (the second while the
first worker is alive) create exactly one worker.  Moreover every worker run
invokes `_finish` — and hence `on_done` — exactly once, so that single run
yields a single completion report. -/
theorem start_idempotent_single_worker :
    (∀ st : EngineState, st.threadAlive = true → AutomationEngine.start st = st)
  ∧ (∀ st : EngineState, st.threadAlive = false →
        AutomationEngine.start (AutomationEngine.start st) = AutomationEngine.start st
      ∧ (AutomationEngine.start (AutomationEngine.start st)).startedWorkers =
          st.startedWorkers + 1)
  ∧ (∀ (acts : List ARun) (stopAt : Nat → Bool), countDone (worker acts stopAt) = 1) := by
  refine ⟨?_, ?_, ?_⟩
  · intro st h; simp [AutomationEngine.start, h]
  · intro st h; constructor <;> simp [AutomationEngine.start, h]
  · intro acts stopAt; exact workerGo_countDone acts.length stopAt acts 0

/-- Witness for `start_idempotent_single_worker`: a concrete running state, a
concrete idle state, and a concrete one-action run. -/
theorem start_idempotent_single_worker_witness :
    AutomationEngine.start ⟨true, false, 1⟩ = ⟨true, false, 1⟩
  ∧ (AutomationEngine.start (AutomationEngine.start ⟨false, true, 0⟩)).startedWorkers = 1
  ∧ countDone (worker [⟨"A", Except.ok ()⟩] (fun _ => false)) = 1 :=
  ⟨start_idempotent_single_worker.1 ⟨true, false, 1⟩ rfl,
   (start_idempotent_single_worker.2.1 ⟨false, true, 0⟩ rfl).2,
   start_idempotent_single_worker.2.2 [⟨"A", Except.ok ()⟩] (fun _ => false)⟩

/-- C8: a raising caller-supplied callback never lets the exception escape
the call site — `_log`, `_finish` and `RunContext.log` all return normally
regardless of the callback's outcome, and they return the very same value as
when the callback returns normally, so the worker's subsequent behaviour is
unaffected. -/
theorem callback_exceptions_swallowed :
    (∀ (on_log : Option (String → Except PyErr Unit)) (msg : String),
        AutomationEngine._log on_log msg = Except.ok ())
  ∧ (∀ (on_done : Option (Bool → String → Except PyErr Unit)) (ok : Bool) (msg : String),
        AutomationEngine._finish on_done ok msg = Except.ok ())
  ∧ (∀ (logger : Option (String → Except PyErr Unit)) (msg : String),
        RunContext.log logger msg = Except.ok ())
  ∧ (∀ (cb good : String → Except PyErr Unit) (msg : String),
        (∀ m, good m = Except.ok ()) →
        AutomationEngine._log (some cb) msg = AutomationEngine._log (some good) msg) := by
  refine ⟨?_, ?_, ?_, ?_⟩
  · intro on_log msg
    match on_log with
    | none => rfl
    | some cb =>
      simp only [AutomationEngine._log]
      rcases cb msg with u | e
      · rfl
      · rfl
  · intro on_done ok msg
    match on_done with
    | none => rfl
    | some cb =>
      simp only [AutomationEngine._finish]
      rcases cb ok msg with u | e
      · rfl
      · rfl
  · intro logger msg
    match logger with
    | none => rfl
    | some cb =>
      simp only [RunContext.log]
      rcases cb msg with u | e
      · rfl
      · rfl
  · intro cb good msg _hgood
    simp only [AutomationEngine._log]
    rcases cb msg with u | e <;> rcases good msg with u2 | e2 <;> rfl

/-- Witness for `callback_exceptions_swallowed` at a concrete raising
callback and a concrete well-behaved one. -/
theorem callback_exceptions_swallowed_witness :
    AutomationEngine._log (some (fun _ => Except.error (PyErr.valueError "cb failed"))) "m" =
      AutomationEngine._log (some (fun _ => Except.ok ())) "m" :=
  callback_exceptions_swallowed.2.2.2
    (fun _ => Except.error (PyErr.valueError "cb failed"))
    (fun _ => Except.ok ()) "m" (fun _ => rfl)

/-- Trace of a run of successful actions starting at index `i`: a progress
log line followed by the execution event, per action. -/
def okEvents (total : Nat) : List ARun → Nat → List Event
  | [], _ => []
  | a :: rest, i =>
    Event.log (progressMsg i total a.name) :: Event.ran i :: okEvents total rest (i + 1)

/-- With the cancel flag never set, the worker loop first emits the events of
a successful prefix, then continues with the remaining actions. -/
theorem workerGo_ok_append (total : Nat) (tail : List ARun) :
    ∀ (pre : List ARun) (i : Nat), (∀ x ∈ pre, x.outcome = Except.ok ()) →
      workerGo total (fun _ => false) (pre ++ tail) i =
        okEvents total pre i ++ workerGo total (fun _ => false) tail (i + pre.length) := by
  intro pre
  induction pre with
  | nil => intro i _; simp [okEvents]
  | cons a pre ih =>
    intro i hpre
    have ha : a.outcome = Except.ok () := hpre a (List.mem_cons_self a pre)
    have hrest : ∀ x ∈ pre, x.outcome = Except.ok () :=
      fun x hx => hpre x (List.mem_cons_of_mem a hx)
    have harith : i + 1 + pre.length = i + (pre.length + 1) := by omega
    have hstep : workerGo total (fun _ => false) ((a :: pre) ++ tail) i =
        Event.log (progressMsg i total a.name) :: Event.ran i ::
          workerGo total (fun _ => false) (pre ++ tail) (i + 1) := by
      simp [workerGo, ha]
    rw [hstep, ih (i + 1) hrest, okEvents]
    simp [harith]

/-- C4: if the actions before `b` all succeed and `b`'s `run` raises with
message `e`, the worker trace is exactly the successful prefix (each earlier
action logged and executed once), then `b`'s progress line and raise, then a
single `on_done(false, "Error: " ++ e)` — so no later action runs, `b` is not
retried, and the error report carries `b`'s error text. -/
theorem worker_failure_propagation (pre : List ARun) (b : ARun) (rest : List ARun) (e : String)
    (hpre : ∀ x ∈ pre, x.outcome = Except.ok ()) (hb : b.outcome = Except.error e) :
    worker (pre ++ b :: rest) (fun _ => false) =
      okEvents (pre.length + (rest.length + 1)) pre 0 ++
        [Event.log (progressMsg pre.length (pre.length + (rest.length + 1)) b.name),
         Event.raised pre.length e,
         Event.done false ("Error: " ++ e)] := by
  have hlen : (pre ++ b :: rest).length = pre.length + (rest.length + 1) := by simp
  rw [worker, hlen, workerGo_ok_append (pre.length + (rest.length + 1)) (b :: rest) pre 0 hpre]
  simp [workerGo, hb]

/-- Witness for `worker_failure_propagation`: A succeeds, B raises "boom",
C present but never run. -/
theorem worker_failure_propagation_witness :
    worker [⟨"A", Except.ok ()⟩, ⟨"B", Except.error "boom"⟩, ⟨"C", Except.ok ()⟩]
        (fun _ => false) =
      okEvents 3 [⟨"A", Except.ok ()⟩] 0 ++
        [Event.log (progressMsg 1 3 "B"), Event.raised 1 "boom",
         Event.done false ("Error: " ++ "boom")] :=
  worker_failure_propagation [⟨"A", Except.ok ()⟩] ⟨"B", Except.error "boom"⟩
    [⟨"C", Except.ok ()⟩] "boom" (by intro x hx; simp at hx; subst hx; rfl) rfl

/-- A bad action document inside the list makes the whole parse loop fail. -/
theorem parseActions_error_of_bad :
    ∀ (raws : List JValue) (fs : PyDict) (e : PyErr),
      JValue.obj fs ∈ raws → BaseAction.from_dict fs = Except.error e →
      ∃ e2, parseActions raws = Except.error e2 := by
  intro raws
  induction raws with
  | nil => intro fs e hmem _; simp at hmem
  | cons raw rest ih =>
    intro fs e hmem hbad
    cases raw with
    | obj gs =>
      rcases List.mem_cons.mp hmem with h1 | h2
      · have hg : gs = fs := by injection h1.symm
        subst hg
        exact ⟨e, by simp [parseActions, hbad]⟩
      · rcases hfd : BaseAction.from_dict gs with e3 | a
        · exact ⟨e3, by simp [parseActions, hfd]⟩
        · obtain ⟨e2, hpa⟩ := ih fs e h2 hbad
          exact ⟨e2, by simp [parseActions, hfd, hpa]⟩
    | null =>
      rcases List.mem_cons.mp hmem with h1 | h2
      · exact absurd h1 (by simp)
      · obtain ⟨e2, hpa⟩ := ih fs e h2 hbad
        exact ⟨e2, by simpa [parseActions] using hpa⟩
    | bool b =>
      rcases List.mem_cons.mp hmem with h1 | h2
      · exact absurd h1 (by simp)
      · obtain ⟨e2, hpa⟩ := ih fs e h2 hbad
        exact ⟨e2, by simpa [parseActions] using hpa⟩
    | num n =>
      rcases List.mem_cons.mp hmem with h1 | h2
      · exact absurd h1 (by simp)
      · obtain ⟨e2, hpa⟩ := ih fs e h2 hbad
        exact ⟨e2, by simpa [parseActions] using hpa⟩
    | str s =>
      rcases List.mem_cons.mp hmem with h1 | h2
      · exact absurd h1 (by simp)
      · obtain ⟨e2, hpa⟩ := ih fs e h2 hbad
        exact ⟨e2, by simpa [parseActions] using hpa⟩
    | arr xs =>
      rcases List.mem_cons.mp hmem with h1 | h2
      · exact absurd h1 (by simp)
      · obtain ⟨e2, hpa⟩ := ih fs e h2 hbad
        exact ⟨e2, by simpa [parseActions] using hpa⟩

/-- C5: an action document whose normalized `type` is none of the seven
supported kinds is rejected by `BaseAction.from_dict` with an `ActionError`
naming the offending type string; and no script document whose `actions`
list contains such a document ever parses into a script — Script
construction aborts with the error instead of producing a partial script. -/
theorem unknown_type_rejected (data : PyDict)
    (hunk : actionTypeOf data ∉ supportedActionTypes) :
    BaseAction.from_dict data =
      Except.error (PyErr.actionError ("Unknown action type: " ++ actionTypeOf data))
  ∧ ∀ (d2 : PyDict) (raws : List JValue) (s : AutomationScript),
      objGetD d2 "actions" (JValue.arr []) = JValue.arr raws →
      JValue.obj data ∈ raws →
      AutomationScript.from_dict d2 ≠ Except.ok s := by
  simp only [supportedActionTypes, List.mem_cons, List.mem_singleton, not_or,
    List.not_mem_nil, not_false_iff, and_true] at hunk
  obtain ⟨h1, h2, h3, h4, h5, h6, h7⟩ := hunk
  have hbad : BaseAction.from_dict data =
      Except.error (PyErr.actionError ("Unknown action type: " ++ actionTypeOf data)) := by
    simp [BaseAction.from_dict, h1, h2, h3, h4, h5, h6, h7]
  refine ⟨hbad, ?_⟩
  intro d2 raws s hacts hmem hok
  have hne : raws ≠ [] := List.ne_nil_of_mem hmem
  obtain ⟨e2, hpa⟩ := parseActions_error_of_bad raws data _ hmem hbad
  rw [AutomationScript.from_dict] at hok
  simp only [hacts] at hok
  rw [show pyOr (JValue.arr raws) (JValue.arr []) = JValue.arr raws from by
        simp [pyOr, pyTruthy, hne]] at hok
  simp only [hpa] at hok
  exact Except.noConfusion hok

/-- Witness for `unknown_type_rejected` at the concrete document
`(type: "bogus")` inside a one-entry script document. -/
theorem unknown_type_rejected_witness :
    BaseAction.from_dict [("type", JValue.str "bogus")] =
      Except.error (PyErr.actionError ("Unknown action type: " ++
        actionTypeOf [("type", JValue.str "bogus")]))
  ∧ AutomationScript.from_dict
        [("actions", JValue.arr [JValue.obj [("type", JValue.str "bogus")]])] ≠
      Except.ok { name := "Unnamed Script", actions := [] } := by
  have h := unknown_type_rejected [("type", JValue.str "bogus")] (by decide)
  exact ⟨h.1, h.2 [("actions", JValue.arr [JValue.obj [("type", JValue.str "bogus")]])]
    [JValue.obj [("type", JValue.str "bogus")]]
    { name := "Unnamed Script", actions := [] } rfl (List.mem_singleton.mpr rfl)⟩

/-- Looking up an absent key yields the default. -/
theorem objGetD_of_not_hasKey (d : PyDict) (key : String) (dflt : JValue)
    (h : hasKey d key = false) : objGetD d key dflt = dflt := by
  induction d with
  | nil => rfl
  | cons kv rest ih =>
    obtain ⟨k, v⟩ := kv
    by_cases hk : k = key
    · simp only [hasKey, if_pos hk] at h; cases h
    · simp only [hasKey, if_neg hk] at h
      simp only [objGetD, if_neg hk]
      exact ih h

/-- A script document whose loop object explicitly sets `until_stopped` to
false while the top-level shorthand key sets it to true. -/
def loopPriorityDoc : PyDict :=
  [("loop", JValue.obj [("until_stopped", JValue.bool false)]),
   ("until_stopped", JValue.bool true)]

/-- C6 counterexample: the claim says the top-level `until_stopped` shorthand
is consulted only when the `loop` keys are absent.  In `loopPriorityDoc` the
key `loop.until_stopped` is present (and false), yet parsing yields
`repeat_until_stopped = true`, because the source consults the top-level key
whenever the loop value is falsy, not only when it is absent. -/
theorem loop_priority_counterexample :
    objGetD loopPriorityDoc "loop" JValue.null =
      JValue.obj [("until_stopped", JValue.bool false)]
  ∧ AutomationScript.from_dict loopPriorityDoc =
      Except.ok { name := "Unnamed Script", actions := [], repeat_count := none,
                  repeat_until_stopped := true } :=
  ⟨rfl, rfl⟩

/-- C6 (amended): loop resolution as the code implements it.  `loop.repeat`,
when present, non-null and convertible, takes priority; the top-level
`repeat` shorthand is consulted exactly when the loop object yields no
count (absent, null, or unconvertible); every accepted count is floored to
1; the resolved until-stopped flag is the disjunction of a truthy
`loop.until_stopped` and a truthy top-level `until_stopped` (so the
shorthand is honoured whenever the loop value is falsy, not only when
absent); with no loop configuration at all the script parses with
`repeat_count = none` and `repeat_until_stopped = false`, the run-once
configuration; and a successfully parsed script carries exactly the
resolved configuration. -/
theorem loop_resolution (data : PyDict) :
    (∀ n, loopRepeatCount data = some n → (resolveLoop data).1 = some n)
  ∧ (loopRepeatCount data = none → (resolveLoop data).1 = topRepeatCount data)
  ∧ (∀ n, (resolveLoop data).1 = some n → 1 ≤ n)
  ∧ ((resolveLoop data).2 = (loopUntilStopped data ||
        pyTruthy (objGetD data "until_stopped" (JValue.bool false))))
  ∧ (hasKey data "loop" = false → hasKey data "repeat" = false →
        hasKey data "until_stopped" = false → resolveLoop data = (none, false))
  ∧ (∀ s, AutomationScript.from_dict data = Except.ok s →
        s.repeat_count = (resolveLoop data).1 ∧
        s.repeat_until_stopped = (resolveLoop data).2) := by
  have hloor : ∀ n, loopRepeatCount data = some n → 1 ≤ n := by
    intro n h
    unfold loopRepeatCount at h
    split at h
    · split at h
      · cases h
      · split at h
        · injection h with h2; subst h2; exact le_max_left 1 _
        · cases h
    · cases h
  have htopr : ∀ n, topRepeatCount data = some n → 1 ≤ n := by
    intro n h
    unfold topRepeatCount at h
    split at h
    · split at h
      · injection h with h2; subst h2; exact le_max_left 1 _
      · cases h
    · cases h
  refine ⟨?_, ?_, ?_, ?_, ?_, ?_⟩
  · intro n h; simp [resolveLoop, h]
  · intro h; simp [resolveLoop, h]
  · intro n h
    rcases hl : loopRepeatCount data with _ | m
    · simp [resolveLoop, hl] at h
      exact htopr n h
    · simp [resolveLoop, hl] at h
      subst h
      exact hloor m hl
  · cases hLU : loopUntilStopped data <;>
      cases hT : pyTruthy (objGetD data "until_stopped" (JValue.bool false)) <;>
      simp [resolveLoop, hLU, hT]
  · intro h1 h2 h3
    have hcfg : loopCfgOf data = JValue.obj [] := by
      simp [loopCfgOf, objGetD_of_not_hasKey data "loop" JValue.null h1, pyOr, pyTruthy]
    simp [resolveLoop, loopRepeatCount, loopUntilStopped, topRepeatCount, hcfg, h2,
      objGetD_of_not_hasKey data "until_stopped" (JValue.bool false) h3, objGetD, pyTruthy]
  · intro s h
    simp only [AutomationScript.from_dict] at h
    split at h
    · cases h
    · injection h with h2
      subst h2
      exact ⟨rfl, rfl⟩

/-- Witness for `loop_resolution`: `loop.repeat = 3` beats a top-level
`repeat = 7`; a document with no loop keys resolves to run-once. -/
theorem loop_resolution_witness :
    (resolveLoop [("loop", JValue.obj [("repeat", JValue.num 3)]),
                  ("repeat", JValue.num 7)]).1 = some 3
  ∧ resolveLoop [("name", JValue.str "x")] = (none, false) :=
  ⟨(loop_resolution [("loop", JValue.obj [("repeat", JValue.num 3)]),
      ("repeat", JValue.num 7)]).1 3 (by decide),
   (loop_resolution [("name", JValue.str "x")]).2.2.2.2.1 rfl rfl rfl⟩

/-- A launch_process document whose `command` is present but the empty
string. -/
def emptyCommandDoc : PyDict :=
  [("type", JValue.str "launch_process"), ("command", JValue.str "")]

/-- C10 counterexample: the claim asserts the run-time error branch of
`LaunchProcessAction.run` is unreachable for every action produced by
`from_dict`.  But a document that explicitly supplies `command: ""` parses
successfully into an action with an empty command, and on that action the
guard does raise. -/
theorem launch_empty_command_counterexample :
    BaseAction.from_dict emptyCommandDoc =
      Except.ok (BaseAction.launchProcess "" [] JValue.null 0)
  ∧ LaunchProcessAction.runCheck "" =
      Except.error (PyErr.actionError "launch_process: \x27command\x27 is required") :=
  ⟨rfl, rfl⟩

/-- C10 (amended): a launch_process document with no `command` key parses
into an action whose command is the string "None" (the `str(None)` of the
absent value), which is non-empty, so the run-time `'command' is required`
branch cannot fire for it; the branch fires only for an empty command
string, and a parsed launch action's command is exactly the `str()` of the
document's `command` entry — so the branch is reachable from `from_dict`
only when the document explicitly supplies an empty-string command. -/
theorem launch_missing_command_amended :
    (∀ (data : PyDict), actionTypeOf data = "launch_process" →
       hasKey data "command" = false →
       ∀ a, BaseAction.from_dict data = Except.ok a → BaseAction.commandOf a = some "None")
  ∧ ("None" ≠ "" ∧ LaunchProcessAction.runCheck "None" = Except.ok ())
  ∧ (∀ (cmd : String) (e : PyErr),
       LaunchProcessAction.runCheck cmd = Except.error e → cmd = "")
  ∧ (∀ (data : PyDict) (c : String) (args : List JValue) (cwd : JValue) (w : Rat),
       BaseAction.from_dict data = Except.ok (BaseAction.launchProcess c args cwd w) →
       c = pyStr (objGetD data "command" JValue.null)) := by
  refine ⟨?_, ⟨by decide, rfl⟩, ?_, ?_⟩
  · intro data htype hmiss a h
    simp only [BaseAction.from_dict, htype, if_pos] at h
    split at h
    · cases h
    · split at h
      · cases h
      · injection h with h2
        subst h2
        simp [BaseAction.commandOf, objGetD_of_not_hasKey data "command" JValue.null hmiss,
          pyStr]
  · intro cmd e h
    unfold LaunchProcessAction.runCheck at h
    split at h
    next heq => exact heq
    next => cases h
  · intro data c args cwd w h
    simp only [BaseAction.from_dict] at h
    split_ifs at h
    · split at h
      · cases h
      · split at h
        · cases h
        · simp only [Except.ok.injEq, BaseAction.launchProcess.injEq] at h
          exact h.1.symm
    all_goals
      first
        | (split at h <;> simp at h)
        | simp at h

/-- Witness for `launch_missing_command_amended`: a launch document with no
`command` key parses to the non-empty command "None". -/
theorem launch_missing_command_amended_witness :
    BaseAction.commandOf (BaseAction.launchProcess "None" [] JValue.null 0) = some "None" :=
  launch_missing_command_amended.1 [("type", JValue.str "launch_process")] rfl rfl
    (BaseAction.launchProcess "None" [] JValue.null 0) rfl

/-- The scanned-parts accumulator of `tagScan` is a prefix of its result. -/
theorem tagScan_out_acc :
    ∀ (cs : List Char) (out : List (List Char)) (buf : List Char) (tag : Bool),
      tagScan out buf tag cs = out ++ tagScan [] buf tag cs := by
  intro cs
  induction cs with
  | nil =>
    intro out buf tag
    by_cases hb : buf = [] <;> simp [tagScan, hb]
  | cons c cs ih =>
    intro out buf tag
    by_cases h1 : c = '<'
    · subst h1
      simp only [tagScan, if_pos]
      rw [ih (if buf = [] then out else out ++ [buf]) [ '<' ] true,
          ih (if buf = [] then [] else [] ++ [buf]) [ '<' ] true]
      by_cases hb : buf = [] <;> simp [hb]
    · by_cases h2 : c = '>' ∧ tag = true
      · obtain ⟨hc, ht⟩ := h2
        subst hc; subst ht
        simp only [tagScan, if_neg h1, if_pos (And.intro rfl rfl)]
        rw [ih (out ++ [buf ++ [ '>' ]]) [] false,
            ih ([] ++ [buf ++ [ '>' ]]) [] false]
        simp
      · simp only [tagScan, if_neg h1, if_neg h2]
        exact ih out (buf ++ [c]) tag

/-- Scanning a stretch with no opening bracket (outside a tag) only extends
the buffer. -/
theorem tagScan_literal :
    ∀ (u rest : List Char) (out : List (List Char)) (buf : List Char),
      '<' ∉ u → tagScan out buf false (u ++ rest) = tagScan out (buf ++ u) false rest := by
  intro u
  induction u with
  | nil => intro rest out buf _; simp
  | cons c u ih =>
    intro rest out buf hmem
    have hc : c ≠ '<' := fun h => hmem (h ▸ List.mem_cons_self c u)
    have hu : '<' ∉ u := fun h => hmem (List.mem_cons_of_mem c h)
    simp only [List.cons_append, tagScan, if_neg hc]
    rw [if_neg (by simp)]
    simp only [List.append_eq]
    rw [ih rest out (buf ++ [c]) hu]
    simp

/-- Scanning a bracket-free tag body inside a tag up to the closing bracket
flushes exactly one completed tag token. -/
theorem tagScan_tag :
    ∀ (nm rest : List Char) (out : List (List Char)) (buf : List Char),
      '<' ∉ nm → '>' ∉ nm →
      tagScan out buf true (nm ++ '>' :: rest) =
        tagScan (out ++ [buf ++ nm ++ [ '>' ]]) [] false rest := by
  intro nm
  induction nm with
  | nil =>
    intro rest out buf _ _
    simp [tagScan]
  | cons c nm ih =>
    intro rest out buf h1 h2
    have hc1 : c ≠ '<' := fun h => h1 (h ▸ List.mem_cons_self c nm)
    have hc2 : c ≠ '>' := fun h => h2 (h ▸ List.mem_cons_self c nm)
    have hn1 : '<' ∉ nm := fun h => h1 (List.mem_cons_of_mem c h)
    have hn2 : '>' ∉ nm := fun h => h2 (List.mem_cons_of_mem c h)
    simp only [List.cons_append, tagScan, if_neg hc1]
    rw [if_neg (by simp [hc2])]
    simp only [List.append_eq]
    rw [ih rest out (buf ++ [c]) hn1 hn2]
    simp

/-- Flattening distributes over appending part lists. -/
theorem flattenParts_append (xs ys : List (List Char)) :
    flattenParts (xs ++ ys) = flattenParts xs ++ flattenParts ys := by
  induction xs with
  | nil => simp [flattenParts]
  | cons part xs ih => simp [flattenParts, ih]

/-- Python `split` never returns an empty list of pieces. -/
theorem splitSpace_ne_nil : ∀ cs : List Char, splitSpace cs ≠ [] := by
  intro cs
  induction cs with
  | nil => simp [splitSpace]
  | cons c cs ih =>
    by_cases hc : c = ' '
    · simp [splitSpace, hc]
    · simp only [splitSpace, if_neg hc]
      rcases hsp : splitSpace cs with _ | ⟨q, qs⟩
      · exact absurd hsp ih
      · simp

/-- Pieces produced by splitting on spaces contain no space. -/
theorem splitSpace_no_space :
    ∀ (cs : List Char) (p : List Char), p ∈ splitSpace cs → ' ' ∉ p := by
  intro cs
  induction cs with
  | nil =>
    intro p hp
    simp only [splitSpace, List.mem_singleton] at hp
    subst hp; simp
  | cons c cs ih =>
    intro p hp
    by_cases hc : c = ' '
    · simp only [splitSpace, if_pos hc] at hp
      rcases List.mem_cons.mp hp with h | h
      · subst h; simp
      · exact ih p h
    · simp only [splitSpace, if_neg hc] at hp
      rcases hsp : splitSpace cs with _ | ⟨q, qs⟩
      · exact absurd hsp (splitSpace_ne_nil cs)
      · rw [hsp] at hp
        rcases List.mem_cons.mp hp with h | h
        · subst h
          intro hmem
          rcases List.mem_cons.mp hmem with h2 | h2
          · exact hc h2.symm
          · exact ih q (hsp ▸ List.mem_cons_self q qs) h2
        · exact ih p (hsp ▸ List.mem_cons_of_mem q h)

/-- Every token produced by flattening is either a bracket token or a
non-empty space-free literal. -/
theorem flattenParts_mem :
    ∀ (parts : List (List Char)) (t : List Char), t ∈ flattenParts parts →
      (t.head? = some '<' ∧ t.getLast? = some '>') ∨ (t ≠ [] ∧ ' ' ∉ t) := by
  intro parts
  induction parts with
  | nil => intro t ht; simp [flattenParts] at ht
  | cons part rest ih =>
    intro t ht
    simp only [flattenParts] at ht
    rcases List.mem_append.mp ht with h | h
    · by_cases htag : isTagToken part = true
      · rw [if_pos htag] at h
        simp only [List.mem_singleton] at h
        subst h
        left
        simpa [isTagToken] using htag
      · rw [if_neg htag] at h
        right
        have hmem := List.mem_filter.mp h
        refine ⟨?_, splitSpace_no_space part t hmem.1⟩
        intro hnil
        rw [hnil] at hmem
        simp at hmem
    · exact ih t h

/-- A non-empty stretch without an opening bracket is not a tag token. -/
theorem isTagToken_eq_false_of_no_open (w : List Char) (hmem : '<' ∉ w) :
    isTagToken w = false := by
  rcases w with _ | ⟨c, ws⟩
  · rfl
  · have hc : c ≠ '<' := fun h => hmem (h ▸ List.mem_cons_self c ws)
    simp [isTagToken, hc]

/-- Decomposition of the tokenizer around one well-formed bracket token: the
literal stretch before it is split on spaces (empty pieces dropped), the
bracket token is kept as a single unit, and scanning continues freshly
after it. -/
theorem tokenize_keys_tag_decomposition (u nm v : List Char)
    (hu : '<' ∉ u) (hn1 : '<' ∉ nm) (hn2 : '>' ∉ nm) :
    _tokenize_keys (u ++ '<' :: (nm ++ '>' :: v)) =
      (splitSpace u).filter (fun p => !p.isEmpty) ++
        (('<' :: nm ++ [ '>' ]) :: _tokenize_keys v) := by
  unfold _tokenize_keys
  rw [tagScan_literal u ('<' :: (nm ++ '>' :: v)) [] [] hu]
  simp only [List.nil_append]
  rw [show tagScan ([] : List (List Char)) u false ('<' :: (nm ++ '>' :: v)) =
        tagScan (if u = [] then [] else [] ++ [u]) [ '<' ] true (nm ++ '>' :: v) from by
      simp [tagScan]]
  rw [tagScan_tag nm v (if u = [] then [] else [] ++ [u]) [ '<' ] hn1 hn2]
  simp only [List.singleton_append]
  rw [tagScan_out_acc v ((if u = [] then [] else [] ++ [u]) ++ [ '<' :: nm ++ [ '>' ]]) [] false]
  rw [flattenParts_append]
  rw [flattenParts_append]
  have htag : isTagToken ('<' :: nm ++ [ '>' ]) = true := by
    have h1 : ('<' :: nm ++ [ '>' ]).head? = some '<' := rfl
    have h2 : ('<' :: nm ++ [ '>' ]).getLast? = some '>' := by
      rw [show ('<' :: nm ++ [ '>' ]) = ('<' :: nm) ++ [ '>' ] from by simp]
      exact List.getLast?_concat _
    rw [isTagToken, h1, h2]
    rfl
  have hflat_tag : flattenParts [ '<' :: nm ++ [ '>' ]] = [ '<' :: nm ++ [ '>' ]] := by
    rw [flattenParts, flattenParts, if_pos htag]
    simp
  rw [hflat_tag]
  by_cases hue : u = []
  · subst hue
    simp [flattenParts, splitSpace]
  · have hnotag : isTagToken u = false := isTagToken_eq_false_of_no_open u hu
    simp [flattenParts, hnotag, hue]

/-- C9 (amended): the claim with "split on whitespace" narrowed to "split on
the space character", which is what the source does.  The conjuncts state:
an empty sequence injects nothing; every produced token is either a
bracketed `(NAME)` token or a non-empty literal containing no space (so
literal runs are split on spaces with empty pieces dropped); around any
well-formed bracket token the tokenization is the space-split of the
literal prefix, the bracket token kept whole, and the tokenization of the
remainder; a non-empty sequence injects exactly the concatenation of its
tokens' injections; an unmapped token is injected as its literal characters
and a mapped one as its named key. -/
theorem send_keys_tokenization :
    sendKeysRun "" = []
  ∧ (∀ (s t : List Char), t ∈ _tokenize_keys s →
        (t.head? = some '<' ∧ t.getLast? = some '>') ∨ (t ≠ [] ∧ ' ' ∉ t))
  ∧ (∀ (u nm v : List Char), '<' ∉ u → '<' ∉ nm → '>' ∉ nm →
        _tokenize_keys (u ++ '<' :: (nm ++ '>' :: v)) =
          (splitSpace u).filter (fun p => !p.isEmpty) ++
            (('<' :: nm ++ [ '>' ]) :: _tokenize_keys v))
  ∧ (∀ s : String, s ≠ "" →
        sendKeysRun s = ((_tokenize_keys s.toList).map injectToken).flatten)
  ∧ (∀ t, token_map t = none → injectToken t = t.map KeyEvent.char)
  ∧ (∀ t k, token_map t = some (Sum.inl k) → injectToken t = [KeyEvent.special k]) := by
  refine ⟨rfl, ?_, tokenize_keys_tag_decomposition, ?_, ?_, ?_⟩
  · intro s t ht
    exact flattenParts_mem (tagScan [] [] false s) t ht
  · intro s hs
    simp [sendKeysRun, hs]
  · intro t h; simp [injectToken, h]
  · intro t k h; simp [injectToken, h]

/-- Witness for `send_keys_tokenization` at the concrete sequence
`"ab (ENTER) cd"` (brackets written as angle characters in the string). -/
theorem send_keys_tokenization_witness :
    _tokenize_keys ("ab ".toList ++ '<' :: ("ENTER".toList ++ '>' :: " cd".toList)) =
      (splitSpace "ab ".toList).filter (fun p => !p.isEmpty) ++
        (('<' :: "ENTER".toList ++ [ '>' ]) :: _tokenize_keys " cd".toList) :=
  send_keys_tokenization.2.2.1 "ab ".toList "ENTER".toList " cd".toList
    (by decide) (by decide) (by decide)

/-- C9 counterexample: the claim says literal runs are split on whitespace,
but the source splits only on the space character: on the sequence
`a(tab)b` the code produces the single token `a(tab)b`, while a
whitespace-splitting tokenizer (modelled from the spec wording) produces
the two tokens `a` and `b`. -/
theorem tokenize_tab_counterexample :
    _tokenize_keys ['a', '\t', 'b'] = [['a', '\t', 'b']]
  ∧ tokenizeKeysSpecWs ['a', '\t', 'b'] = [['a'], ['b']]
  ∧ _tokenize_keys ['a', '\t', 'b'] ≠ tokenizeKeysSpecWs ['a', '\t', 'b'] :=
  ⟨rfl, rfl, by decide⟩
